import Mathlib

/-!
Verification development for the pancaketrade order-watching bot.

Sources embedded here:
- src/pancaketrade/bot.py (TradeBot: command_order, get_token_status,
  status scheduler configuration, start_status_update)
- src/pancaketrade/conversations/editorder.py (EditOrderConversation:
  order sorting for display, command_edittoken_orderchoice)
- the TriggerEvaluator / execution-lock discipline of the order watchers,
  which is not part of the two source files above and is therefore
  modelled from the specification (each such definition is marked
  "Modelled from the spec").

Prices and amounts are embedded as rationals (the source uses
arbitrary-precision Decimal, never binary floating point), and machine
integers as Int/Nat.
-/

namespace Pancaketrade

/-- Direction of an order: buy or sell. -/
inductive Direction
  | buy
  | sell
deriving DecidableEq, Repr

/-- Modelled from the spec: decision returned by the TriggerEvaluator
(spec section 4.1, `evaluate(order, currentPrice) -> Decision`). -/
inductive Decision
  | Fire
  | Hold
  | AnchorUpdated (newAnchor : ℚ)
deriving DecidableEq, Repr

/-- Modelled from the spec: the condition-relevant fields of an Order
(spec section 3). `limitPrice = none` means a market order. A trailing
stop is present when `trailingCallback` is `some`; `anchor` is its
ratcheting reference price, absent until first initialized. `armed`
records whether the trailing mechanism has been armed (true for a fresh
trailing order without a limit, or once a combined limit condition has
first been satisfied). -/
structure TOrder where
  direction : Direction
  limitPrice : Option ℚ
  trailingCallback : Option ℚ
  anchor : Option ℚ
  armed : Bool
deriving DecidableEq, Repr

/-- Modelled from the spec: the TriggerEvaluator (spec section 4.1).
The orderwatcher module is not among the given source files, so this is
a direct transcription of the spec text: limit-sell fires when price is
at or above the target, limit-buy when at or below; a market order
always fires; a trailing stop first ratchets the anchor when the price
improved (and then never fires in the same evaluation), initializes a
missing anchor to the current price, and otherwise fires exactly when
the retracement from the anchor reaches the callback rate. An unarmed
trailing stop (limit combined with trailing) arms, initializing its
anchor, once the limit condition is first satisfied. -/
def evaluate (o : TOrder) (price : ℚ) : Decision :=
  match o.trailingCallback with
  | none =>
    match o.limitPrice with
    | none => .Fire
    | some target =>
      match o.direction with
      | .sell => if price ≥ target then .Fire else .Hold
      | .buy => if price ≤ target then .Fire else .Hold
  | some cb =>
    if o.armed then
      match o.anchor with
      | none => .AnchorUpdated price
      | some a =>
        match o.direction with
        | .sell =>
          if price > a then .AnchorUpdated price
          else if price ≤ a * (1 - cb / 100) then .Fire
          else .Hold
        | .buy =>
          if price < a then .AnchorUpdated price
          else if price ≥ a * (1 + cb / 100) then .Fire
          else .Hold
    else
      match o.limitPrice with
      | none => .AnchorUpdated price
      | some target =>
        match o.direction with
        | .sell => if price ≥ target then .AnchorUpdated price else .Hold
        | .buy => if price ≤ target then .AnchorUpdated price else .Hold

/-- For a trailing-stop order, the anchor-ratchet condition of spec
section 4.1: the price improved relative to the current anchor
(higher for sells, lower for buys). -/
def ratchets (o : TOrder) (a price : ℚ) : Prop :=
  match o.direction with
  | .sell => price > a
  | .buy => price < a

/-- C2: limit-sell fires iff price is at or above target (else holds);
limit-buy fires iff price is at or below target (else holds). -/
theorem evaluate_limit_iff (o : TOrder) (target P : ℚ)
    (hcb : o.trailingCallback = none) (hlim : o.limitPrice = some target) :
    (o.direction = .sell →
      ((evaluate o P = .Fire ↔ P ≥ target) ∧ (evaluate o P = .Hold ↔ P < target))) ∧
    (o.direction = .buy →
      ((evaluate o P = .Fire ↔ P ≤ target) ∧ (evaluate o P = .Hold ↔ target < P))) := by
  constructor
  · intro hdir
    have he : evaluate o P = if P ≥ target then .Fire else .Hold := by
      unfold evaluate
      rw [hcb, hlim, hdir]
    rw [he]
    by_cases h : P ≥ target
    · simp only [if_pos h]
      refine ⟨⟨fun _ => h, fun _ => trivial⟩, ?_, ?_⟩
      · intro hh
        exact Decision.noConfusion hh
      · intro hlt
        exact absurd h (not_le.mpr hlt)
    · simp only [if_neg h]
      push_neg at h
      refine ⟨⟨?_, ?_⟩, fun _ => h, fun _ => trivial⟩
      · intro hh
        exact Decision.noConfusion hh
      · intro hge
        exact absurd hge (not_le.mpr h)
  · intro hdir
    have he : evaluate o P = if P ≤ target then .Fire else .Hold := by
      unfold evaluate
      rw [hcb, hlim, hdir]
    rw [he]
    by_cases h : P ≤ target
    · simp only [if_pos h]
      refine ⟨⟨fun _ => h, fun _ => trivial⟩, ?_, ?_⟩
      · intro hh
        exact Decision.noConfusion hh
      · intro hlt
        exact absurd h (not_le.mpr hlt)
    · simp only [if_neg h]
      push_neg at h
      refine ⟨⟨?_, ?_⟩, fun _ => h, fun _ => trivial⟩
      · intro hh
        exact Decision.noConfusion hh
      · intro hge
        exact absurd hge (not_le.mpr h)

/-- Witness for C2 at a concrete sell order (target 5, price 7 fires)
and a concrete buy order (target 5, price 3 fires). -/
theorem evaluate_limit_iff_witness :
    (evaluate ⟨.sell, some 5, none, none, true⟩ 7 = .Fire ↔ (7 : ℚ) ≥ 5) ∧
    (evaluate ⟨.buy, some 5, none, none, true⟩ 3 = .Fire ↔ (3 : ℚ) ≤ 5) := by
  constructor
  · exact ((evaluate_limit_iff ⟨.sell, some 5, none, none, true⟩ 5 7 rfl rfl).1 rfl).1
  · exact ((evaluate_limit_iff ⟨.buy, some 5, none, none, true⟩ 5 3 rfl rfl).2 rfl).1

/-- C3: an armed trailing-stop order with no anchor yet returns
`AnchorUpdated` with the current price on its first evaluation and never
`Fire`; moreover, whenever the anchor ratchets (price improved relative
to the anchor), the evaluation returns `AnchorUpdated`, so ratcheting
and firing are mutually exclusive within a single evaluation. -/
theorem evaluate_trailing_first_and_exclusive (o : TOrder) (cb P : ℚ)
    (hcb : o.trailingCallback = some cb) (harmed : o.armed = true) :
    (o.anchor = none →
      (evaluate o P = .AnchorUpdated P ∧ evaluate o P ≠ .Fire)) ∧
    (∀ a, o.anchor = some a → ratchets o a P →
      (evaluate o P = .AnchorUpdated P ∧ evaluate o P ≠ .Fire)) := by
  constructor
  · intro hanchor
    unfold evaluate
    rw [hcb, harmed, hanchor]
    exact ⟨rfl, fun h => Decision.noConfusion h⟩
  · intro a hanchor hr
    unfold evaluate
    rw [hcb, harmed, hanchor]
    unfold ratchets at hr
    cases hdir : o.direction with
    | sell =>
      rw [hdir] at hr
      simp only [if_pos hr]
      exact ⟨rfl, fun h => Decision.noConfusion h⟩
    | buy =>
      rw [hdir] at hr
      simp only [if_pos hr]
      exact ⟨rfl, fun h => Decision.noConfusion h⟩

/-- Witness for C3: a fresh armed trailing sell order (callback 10, no
anchor) evaluated at price 2 updates the anchor and does not fire; the
same order with anchor 2 seen at the improved price 3 ratchets rather
than fires. -/
theorem evaluate_trailing_first_and_exclusive_witness :
    (evaluate ⟨.sell, none, some 10, none, true⟩ 2 = .AnchorUpdated 2 ∧
      evaluate ⟨.sell, none, some 10, none, true⟩ 2 ≠ .Fire) ∧
    (evaluate ⟨.sell, none, some 10, some 2, true⟩ 3 = .AnchorUpdated 3 ∧
      evaluate ⟨.sell, none, some 10, some 2, true⟩ 3 ≠ .Fire) := by
  constructor
  · exact (evaluate_trailing_first_and_exclusive ⟨.sell, none, some 10, none, true⟩
      10 2 rfl rfl).1 rfl
  · exact (evaluate_trailing_first_and_exclusive ⟨.sell, none, some 10, some 2, true⟩
      10 3 rfl rfl).2 2 rfl (show (2:ℚ) < 3 by decide)

/-- Lifecycle state of an Order (spec section 3). -/
inductive OrderStatus
  | pending
  | triggered
  | executed
  | failed
  | cancelled
deriving DecidableEq, Repr

/-- Modelled from the spec: the execution-relevant state of one Order
(spec section 5); the execution engine is not among the given source
files. `inFlight` counts concurrent execution attempts holding the
order execution lock, `swapInvocations` counts calls into the
SwapExecutor, and `executedTransitions` counts transitions into the
`executed` state. -/
structure ExecState where
  status : OrderStatus
  inFlight : Nat
  swapInvocations : Nat
  executedTransitions : Nat
deriving DecidableEq, Repr

/-- Events acting on one Order across evaluation ticks: a tick that sees
the order fired and tries to execute it, and the three completion
outcomes of an in-flight attempt. -/
inductive ExecEvent
  | tickFire
  | completeOk
  | completeRecoverable
  | completeFatal
deriving DecidableEq, Repr

/-- Modelled from the spec (section 5): a tick acquires the order
execution lock before calling the SwapExecutor and never fires an order
that is already triggered-but-unresolved or in a terminal state; a
completion releases the lock and moves the order to `executed`
(success), back to `pending` (recoverable failure) or to `failed`
(non-recoverable failure). -/
def execStep (s : ExecState) : ExecEvent → ExecState
  | .tickFire =>
    if s.inFlight = 0 ∧ s.status = .pending then
      { status := .triggered, inFlight := 1,
        swapInvocations := s.swapInvocations + 1,
        executedTransitions := s.executedTransitions }
    else s
  | .completeOk =>
    if s.inFlight = 1 ∧ s.status = .triggered then
      { status := .executed, inFlight := 0,
        swapInvocations := s.swapInvocations,
        executedTransitions := s.executedTransitions + 1 }
    else s
  | .completeRecoverable =>
    if s.inFlight = 1 ∧ s.status = .triggered then
      { status := .pending, inFlight := 0,
        swapInvocations := s.swapInvocations,
        executedTransitions := s.executedTransitions }
    else s
  | .completeFatal =>
    if s.inFlight = 1 ∧ s.status = .triggered then
      { status := .failed, inFlight := 0,
        swapInvocations := s.swapInvocations,
        executedTransitions := s.executedTransitions }
    else s

/-- A fresh pending Order with no execution attempt yet. -/
def execInit : ExecState :=
  { status := .pending, inFlight := 0, swapInvocations := 0, executedTransitions := 0 }

/-- Run a sequence of events on a fresh Order. -/
def execRun (events : List ExecEvent) : ExecState :=
  events.foldl execStep execInit

/-- Inductive invariant of the execution protocol: the lock is held
exactly while the order is triggered-but-unresolved, and the order has
entered `executed` exactly once when (and only when) it is `executed`. -/
def execInv (s : ExecState) : Prop :=
  s.inFlight = (if s.status = .triggered then 1 else 0) ∧
  s.executedTransitions = (if s.status = .executed then 1 else 0)

lemma execInv_init : execInv execInit := by
  constructor <;> rfl

lemma execInv_step (s : ExecState) (e : ExecEvent) (h : execInv s) :
    execInv (execStep s e) := by
  obtain ⟨h1, h2⟩ := h
  cases e with
  | tickFire =>
    simp only [execStep]
    split
    next hc =>
      obtain ⟨hf, hs⟩ := hc
      rw [hs] at h2
      refine ⟨rfl, ?_⟩
      simpa using h2
    next => exact ⟨h1, h2⟩
  | completeOk =>
    simp only [execStep]
    split
    next hc =>
      obtain ⟨hf, hs⟩ := hc
      rw [hs] at h2
      refine ⟨rfl, ?_⟩
      simpa using h2
    next => exact ⟨h1, h2⟩
  | completeRecoverable =>
    simp only [execStep]
    split
    next hc =>
      obtain ⟨hf, hs⟩ := hc
      rw [hs] at h2
      refine ⟨rfl, ?_⟩
      simpa using h2
    next => exact ⟨h1, h2⟩
  | completeFatal =>
    simp only [execStep]
    split
    next hc =>
      obtain ⟨hf, hs⟩ := hc
      rw [hs] at h2
      refine ⟨rfl, ?_⟩
      simpa using h2
    next => exact ⟨h1, h2⟩

lemma execInv_foldl (events : List ExecEvent) (s : ExecState) (h : execInv s) :
    execInv (events.foldl execStep s) := by
  induction events generalizing s with
  | nil => exact h
  | cons e rest ih => exact ih (execStep s e) (execInv_step s e h)

lemma execInv_run (events : List ExecEvent) : execInv (execRun events) :=
  execInv_foldl events execInit execInv_init

/-- C1: along every interleaving of tick and completion events on one
Order, at most one execution attempt is ever in flight and the Order
transitions into `executed` at most once; moreover two evaluation ticks
racing on the same fired Order produce exactly one SwapExecutor
invocation (the second tick finds the order triggered and locked and
does nothing). -/
theorem exec_at_most_once (events : List ExecEvent) :
    (execRun events).inFlight ≤ 1 ∧
    (execRun events).executedTransitions ≤ 1 ∧
    execRun [.tickFire, .tickFire] =
      { status := .triggered, inFlight := 1,
        swapInvocations := 1, executedTransitions := 0 } := by
  obtain ⟨h1, h2⟩ := execInv_run events
  refine ⟨?_, ?_, by decide⟩
  · rw [h1]
    split <;> omega
  · rw [h2]
    split <;> omega

/-- The fields of an OrderWatcher that bot.py and editorder.py read:
the integer id of its database record (`order_record.id`) and its
optional limit price (`limit_price`, absent for market orders). -/
structure OrderW where
  id : Int
  limit_price : Option ℚ
deriving DecidableEq, Repr

/-- An ASCII decimal digit. -/
def isAsciiDigit (c : Char) : Bool := '0' ≤ c && c ≤ '9'

/-- Numeric value of a run of decimal digits. -/
def digitsVal (cs : List Char) : Nat :=
  cs.foldl (fun n c => 10 * n + (c.toNat - 48)) 0

/-- The Python builtin `int(s)` as applied by `command_order`
(bot.py line 170): an optional sign followed by a nonempty run of
digits parses to that integer; anything else raises ValueError,
modelled as `none`. -/
def parsePyInt (s : String) : Option Int :=
  match s.data with
  | [] => none
  | '-' :: cs =>
    if cs ≠ [] ∧ cs.all isAsciiDigit then some (-(digitsVal cs : Int)) else none
  | '+' :: cs =>
    if cs ≠ [] ∧ cs.all isAsciiDigit then some ((digitsVal cs : Int)) else none
  | cs => if cs.all isAsciiDigit then some ((digitsVal cs : Int)) else none

/-- The three replies `TradeBot.command_order` can send. -/
inductive OrderReply
  | usage
  | notFound
  | view (o : OrderW)
deriving DecidableEq, Repr

/-- bot.py lines 174-179: the lookup loop of `command_order` over every
token watcher and each of its orders; a later match overwrites an
earlier one, so the loop keeps the last matching order in iteration
order. -/
def findOrderLoop (tokens : List (List OrderW)) (order_id : Int) : Option OrderW :=
  tokens.foldl
    (fun acc orders =>
      orders.foldl (fun a o => if o.id = order_id then some o else a) acc)
    none

/-- bot.py lines 164-183, `TradeBot.command_order`: a missing argument
list, an empty one (IndexError) or an argument `int` cannot parse
(ValueError) gets the usage-error reply; an id carried by no order gets
the not-found reply; otherwise the detailed view of the order the
lookup loop kept. -/
def command_order (args : Option (List String)) (tokens : List (List OrderW)) :
    OrderReply :=
  match args with
  | none => .usage
  | some l =>
    match l.head? with
    | none => .usage
    | some s =>
      match parsePyInt s with
      | none => .usage
      | some order_id =>
        match findOrderLoop tokens order_id with
        | none => .notFound
        | some o => .view o

/-- bot.py lines 272-274 and editorder.py line 59: the sort key of the
orders display, `o.limit_price if o.limit_price else Decimal(1e12)`.
A falsy limit price (absent, or zero) is replaced by the big artificial
value 10^12 so that market orders display first. -/
def sortKey (o : OrderW) : ℚ :=
  match o.limit_price with
  | none => 1000000000000
  | some p => if p = 0 then 1000000000000 else p

/-- Stable insertion into a list sorted by non-increasing `sortKey`:
the inserted (originally earlier) element stays before later elements
of equal key, as in Python's stable `sorted(..., reverse=True)`. -/
def insertByKeyDesc (a : OrderW) : List OrderW → List OrderW
  | [] => [a]
  | b :: bs =>
    if sortKey b ≤ sortKey a then a :: b :: bs else b :: insertByKeyDesc a bs

/-- The display snapshot of bot.py lines 272-274 / editorder.py
line 59: `sorted(token.orders, key=..., reverse=True)`, a stable sort
by non-increasing `sortKey`. -/
def orders_sorted : List OrderW → List OrderW
  | [] => []
  | a :: as => insertByKeyDesc a (orders_sorted as)

/-- The snapshot-order property exactly as the claim states it: every
market order (no limit price) sorts before every order that has a limit
price. -/
def marketsSortFirst (l : List OrderW) : Prop :=
  l.Pairwise (fun x y => ¬ (y.limit_price = none ∧ x.limit_price ≠ none))

/-- bot.py lines 265-271 of `get_token_status`: the percent difference
from the effective buy price, computed only inside the truthiness guard
`if token.effective_buy_price:`; with an absent or zero effective buy
price no value is computed. -/
def price_diff_percent (token_price : ℚ) (effective_buy_price : Option ℚ) :
    Option ℚ :=
  match effective_buy_price with
  | none => none
  | some p => if p = 0 then none else some ((token_price / p - 1) * 100)

/-- bot.py lines 60-66: the job defaults of the status scheduler. -/
structure JobDefaults where
  coalesce : Bool
  max_instances : Nat
  misfire_grace_time : Nat
deriving DecidableEq, Repr

/-- The values `TradeBot.__init__` passes to BackgroundScheduler
(bot.py lines 60-66). -/
def status_scheduler_job_defaults : JobDefaults :=
  { coalesce := true, max_instances := 1, misfire_grace_time := 20 }

/-- Number of currently running instances of the periodic status job. -/
structure SchedState where
  running : Nat
deriving DecidableEq, Repr

/-- What the scheduler does with one due run of the job. -/
inductive TickOutcome
  | started
  | skipped
deriving DecidableEq, Repr

/-- Modelled from the spec (section 5) and the scheduler configuration
of bot.py lines 60-66: when a run of the job comes due, it starts only
if fewer than `max_instances` instances are running; otherwise it is
skipped and nothing is queued (the state is unchanged). -/
def dueTick (d : JobDefaults) (s : SchedState) : SchedState × TickOutcome :=
  if s.running < d.max_instances then ({ running := s.running + 1 }, .started)
  else (s, .skipped)

/-- A running instance of the job finishes. -/
def finishTick (s : SchedState) : SchedState :=
  { running := s.running - 1 }

/-- Scheduler events: a due time of the interval job, or the end of a
running instance. -/
inductive SchedEvent
  | due
  | finish
deriving DecidableEq, Repr

/-- One scheduler step. -/
def schedStep (d : JobDefaults) (s : SchedState) : SchedEvent → SchedState
  | .due => (dueTick d s).1
  | .finish => finishTick s

/-- Run the scheduler from idle over a sequence of events. -/
def schedRun (d : JobDefaults) (events : List SchedEvent) : SchedState :=
  events.foldl (schedStep d) { running := 0 }

/-- The configuration fields of `Config` that `TradeBot` reads in
bot.py (construction and `start_status_update`). -/
structure BotConfig where
  bsc_rpc : String
  min_pool_size_bnb : ℚ
  update_messages : Bool
deriving DecidableEq, Repr

/-- bot.py lines 114-119, `TradeBot.start_status_update`: when
`config.update_messages` is false no periodic job is installed at all;
otherwise the job is installed with `IntervalTrigger(seconds=30)`,
a hard-coded constant. The function returns the interval in seconds of
the installed job, if any. -/
def start_status_update_interval (c : BotConfig) : Option Nat :=
  if c.update_messages then some 30 else none

/-- The replies of `command_edittoken_orderchoice` that terminate
normally. -/
inductive ChoiceReply
  | conversationEnd
  | invalidOrderId
  | actionChoice (o : OrderW)
deriving DecidableEq, Repr

/-- The Python `str.isdecimal` on the callback data, restricted to the
ASCII digits that order-id callback data is built from: nonempty and
all digits. -/
def isdecimal (s : String) : Bool :=
  !s.data.isEmpty && s.data.all isAsciiDigit

/-- `int(str(data))` for data that passed `isdecimal`. -/
def decimalVal (s : String) : Int :=
  (digitsVal s.data : Int)

/-- editorder.py lines 80-95, `command_edittoken_orderchoice` up to its
reply: the cancel button ends the conversation; non-decimal callback
data gets the "Invalid order ID" error reply; otherwise
`next(filter(lambda o: o.order_record.id == int(str(query.data)),
token.orders))` takes the first order with the given id, and raises
StopIteration (modelled as `Except.error`) when no order matches. -/
def command_edittoken_orderchoice (data : String) (orders : List OrderW) :
    Except Unit ChoiceReply :=
  if data = "cancel" then .ok .conversationEnd
  else if !(isdecimal data) then .ok .invalidOrderId
  else
    match orders.find? (fun o => o.id = decimalVal data) with
    | some o => .ok (.actionChoice o)
    | none => .error ()

lemma foldl_keepLast_no_match (oid : Int) (l : List OrderW) (acc : Option OrderW)
    (h : ∀ o ∈ l, o.id ≠ oid) :
    l.foldl (fun a o => if o.id = oid then some o else a) acc = acc := by
  induction l generalizing acc with
  | nil => rfl
  | cons x xs ih =>
    have hx : x.id ≠ oid := h x (List.mem_cons_self x xs)
    simp only [List.foldl_cons, if_neg hx]
    exact ih acc fun o ho => h o (List.mem_cons_of_mem x ho)

lemma foldl_keepLast_single (oid : Int) (l : List OrderW) (u : OrderW)
    (acc : Option OrderW) (h : l.filter (fun o => o.id = oid) = [u]) :
    l.foldl (fun a o => if o.id = oid then some o else a) acc = some u := by
  induction l generalizing acc with
  | nil => simp at h
  | cons x xs ih =>
    by_cases hx : x.id = oid
    · rw [List.filter_cons_of_pos (by simpa using hx)] at h
      simp only [List.cons.injEq] at h
      obtain ⟨h1, h2⟩ := h
      subst h1
      simp only [List.foldl_cons, if_pos hx]
      refine foldl_keepLast_no_match oid xs (some x) ?_
      intro o ho
      have := List.filter_eq_nil_iff.mp h2 o ho
      simpa using this
    · rw [List.filter_cons_of_neg (by simpa using hx)] at h
      simp only [List.foldl_cons, if_neg hx]
      exact ih acc h

lemma findOrderLoop_eq_flatten (tokens : List (List OrderW)) (oid : Int) :
    findOrderLoop tokens oid =
      (tokens.flatten).foldl (fun a o => if o.id = oid then some o else a) none := by
  rw [findOrderLoop, List.foldl_flatten]

/-- C8: `/order` with a missing argument list, an empty one, or an
argument that does not parse as an integer replies with the usage error
and performs no lookup (the reply does not depend on the watchers at
all); an integer id carried by no order of any token watcher gets the
not-found reply; an id carried by exactly one order gets that order's
detailed view. -/
theorem command_order_spec (tokens : List (List OrderW)) :
    (command_order none tokens = .usage) ∧
    (command_order (some []) tokens = .usage) ∧
    (∀ s rest, parsePyInt s = none →
      command_order (some (s :: rest)) tokens = .usage) ∧
    (∀ s rest oid, parsePyInt s = some oid →
      (∀ o ∈ tokens.flatten, o.id ≠ oid) →
      command_order (some (s :: rest)) tokens = .notFound) ∧
    (∀ s rest oid u, parsePyInt s = some oid →
      (tokens.flatten).filter (fun o => o.id = oid) = [u] →
      command_order (some (s :: rest)) tokens = .view u) := by
  refine ⟨rfl, rfl, ?_, ?_, ?_⟩
  · intro s rest hp
    simp only [command_order, List.head?_cons, hp]
  · intro s rest oid hp hnone
    have hfind : findOrderLoop tokens oid = none := by
      rw [findOrderLoop_eq_flatten]
      exact foldl_keepLast_no_match oid _ none hnone
    simp only [command_order, List.head?_cons, hp, hfind]
  · intro s rest oid u hp hfilter
    have hfind : findOrderLoop tokens oid = some u := by
      rw [findOrderLoop_eq_flatten]
      exact foldl_keepLast_single oid _ u none hfilter
    simp only [command_order, List.head?_cons, hp, hfind]

/-- Witness for C8 on one token watcher holding the single order 7:
an unparseable argument gets the usage reply, id 12 is not found, and
id 7 returns the detailed view of order 7. -/
theorem command_order_spec_witness :
    (command_order (some ["zz"]) [[⟨7, none⟩]] = .usage) ∧
    (command_order (some ["12"]) [[⟨7, none⟩]] = .notFound) ∧
    (command_order (some ["7"]) [[⟨7, none⟩]] = .view ⟨7, none⟩) := by
  refine ⟨?_, ?_, ?_⟩
  · exact (command_order_spec [[⟨7, none⟩]]).2.2.1 "zz" [] (by decide)
  · exact (command_order_spec [[⟨7, none⟩]]).2.2.2.1 "12" [] 12 (by decide) (by decide)
  · exact (command_order_spec [[⟨7, none⟩]]).2.2.2.2 "7" [] 7 ⟨7, none⟩
      (by decide) (by decide)

/-- C7 (code bug): two orders in different token watchers both carry
id 12; `/order 12` does not fail loudly on the duplicate id — it
silently replies with the detailed view of the duplicate visited last
by the lookup loop. -/
theorem command_order_duplicate_silent :
    command_order (some ["12"]) [[⟨12, none⟩], [⟨12, some 3⟩]] =
      .view ⟨12, some 3⟩ := by
  decide

lemma sortKey_none (o : OrderW) (h : o.limit_price = none) :
    sortKey o = 1000000000000 := by
  simp [sortKey, h]

lemma sortKey_some (o : OrderW) (p : ℚ) (h : o.limit_price = some p)
    (hp : p ≠ 0) : sortKey o = p := by
  simp [sortKey, h, hp]

lemma insertByKeyDesc_perm (a : OrderW) (l : List OrderW) :
    (insertByKeyDesc a l).Perm (a :: l) := by
  induction l with
  | nil => exact List.Perm.refl _
  | cons b bs ih =>
    rw [insertByKeyDesc]
    split
    · exact List.Perm.refl _
    · exact (ih.cons b).trans (List.Perm.swap a b bs)

lemma insertByKeyDesc_pairwise (a : OrderW) (l : List OrderW)
    (h : l.Pairwise (fun x y => sortKey y ≤ sortKey x)) :
    (insertByKeyDesc a l).Pairwise (fun x y => sortKey y ≤ sortKey x) := by
  induction l with
  | nil => simp [insertByKeyDesc]
  | cons b bs ih =>
    rw [List.pairwise_cons] at h
    obtain ⟨hb, hbs⟩ := h
    rw [insertByKeyDesc]
    split
    next hle =>
      rw [List.pairwise_cons]
      refine ⟨?_, List.pairwise_cons.mpr ⟨hb, hbs⟩⟩
      intro y hy
      rcases List.mem_cons.mp hy with h1 | h2
      · subst h1
        exact hle
      · exact le_trans (hb y h2) hle
    next hgt =>
      push_neg at hgt
      rw [List.pairwise_cons]
      refine ⟨?_, ih hbs⟩
      intro y hy
      have hy2 : y ∈ a :: bs := (insertByKeyDesc_perm a bs).mem_iff.mp hy
      rcases List.mem_cons.mp hy2 with h1 | h2
      · subst h1
        exact le_of_lt hgt
      · exact hb y h2

lemma orders_sorted_perm (l : List OrderW) : (orders_sorted l).Perm l := by
  induction l with
  | nil => exact List.Perm.refl _
  | cons a as ih =>
    rw [orders_sorted]
    exact (insertByKeyDesc_perm a (orders_sorted as)).trans (ih.cons a)

lemma orders_sorted_pairwise (l : List OrderW) :
    (orders_sorted l).Pairwise (fun x y => sortKey y ≤ sortKey x) := by
  induction l with
  | nil => simp [orders_sorted]
  | cons a as ih =>
    rw [orders_sorted]
    exact insertByKeyDesc_pairwise a _ ih

/-- C4 (amended): the display snapshot is a permutation of the token's
orders, sorted by non-increasing effective price, where the effective
price of an order with a truthy (present, nonzero) limit price is that
price and a market or zero-priced order gets the artificial sentinel
10^12; consequently every market order sorts before every order whose
limit price is positive and below 10^12, but not necessarily before an
order whose limit price reaches the sentinel. -/
theorem orders_sorted_spec (l : List OrderW) :
    (orders_sorted l).Perm l ∧
    (orders_sorted l).Pairwise (fun x y => sortKey y ≤ sortKey x) ∧
    (orders_sorted l).Pairwise (fun x y =>
      ¬ (y.limit_price = none ∧
        ∃ p, x.limit_price = some p ∧ 0 < p ∧ p < 1000000000000)) := by
  refine ⟨orders_sorted_perm l, orders_sorted_pairwise l, ?_⟩
  refine (orders_sorted_pairwise l).imp ?_
  intro x y hle hc
  obtain ⟨hy, p, hx, hp0, hplt⟩ := hc
  rw [sortKey_none y hy, sortKey_some x p hx (ne_of_gt hp0)] at hle
  exact absurd hle (not_le.mpr hplt)

/-- C4 counterexample: a market order next to an order whose limit
price is 2·10^12 (past the sentinel 10^12). The sort places the priced
order first, so the market order does not sort before every order that
has a limit price. -/
theorem orders_sorted_counterexample :
    ¬ marketsSortFirst (orders_sorted [⟨1, none⟩, ⟨2, some 2000000000000⟩]) := by
  unfold marketsSortFirst
  decide

lemma schedRun_le (d : JobDefaults) (events : List SchedEvent) (s : SchedState)
    (h : s.running ≤ d.max_instances) :
    (events.foldl (schedStep d) s).running ≤ d.max_instances := by
  induction events generalizing s with
  | nil => exact h
  | cons e rest ih =>
    apply ih
    cases e with
    | due =>
      show ((dueTick d s).1).running ≤ d.max_instances
      rw [dueTick]
      split
      next hlt => exact hlt
      next => exact h
    | finish => exact le_trans (Nat.sub_le _ _) h

/-- C5: the status scheduler is configured with coalescing and a single
allowed instance (bot.py lines 60-66); in the scheduler model, along
every event sequence at most one instance of the tick job is ever
running, and a tick coming due while one is still running is skipped
with the state unchanged — nothing is queued. -/
theorem sched_coalesced (events : List SchedEvent) :
    status_scheduler_job_defaults.coalesce = true ∧
    status_scheduler_job_defaults.max_instances = 1 ∧
    (schedRun status_scheduler_job_defaults events).running ≤ 1 ∧
    (∀ s : SchedState, s.running = 1 →
      dueTick status_scheduler_job_defaults s = (s, .skipped)) := by
  refine ⟨rfl, rfl, ?_, ?_⟩
  · exact schedRun_le status_scheduler_job_defaults events ⟨0⟩ (by decide)
  · intro s hs
    rw [dueTick]
    have hnot : ¬ s.running < status_scheduler_job_defaults.max_instances := by
      rw [hs]
      decide
    rw [if_neg hnot]

/-- Witness for C5: with one tick already running, a due tick is
skipped and the scheduler state is unchanged. -/
theorem sched_coalesced_witness :
    dueTick status_scheduler_job_defaults ⟨1⟩ = (⟨1⟩, .skipped) :=
  (sched_coalesced []).2.2.2 ⟨1⟩ rfl

/-- C6 (code bug): `start_status_update` either installs the periodic
status job with the hard-coded 30-second interval or, when
`update_messages` is off, no job at all — no configuration can select
any other interval, so the interval is not configurable. -/
theorem start_status_update_interval_fixed (c : BotConfig) :
    start_status_update_interval c = some 30 ∨
    start_status_update_interval c = none := by
  unfold start_status_update_interval
  split
  · exact Or.inl rfl
  · exact Or.inr rfl

/-- C9: a percent-change-from-buy value is produced only under the
truthiness guard — whenever `price_diff_percent` yields a value, the
effective buy price was present and nonzero and the division that
produced the value was by that nonzero price. -/
theorem price_diff_percent_safe (price : ℚ) (ebp : Option ℚ) (d : ℚ)
    (h : price_diff_percent price ebp = some d) :
    ∃ p, ebp = some p ∧ p ≠ 0 ∧ d = (price / p - 1) * 100 := by
  cases ebp with
  | none => simp [price_diff_percent] at h
  | some p =>
    simp only [price_diff_percent] at h
    by_cases hp : p = 0
    · rw [if_pos hp] at h
      exact Option.noConfusion h
    · rw [if_neg hp] at h
      refine ⟨p, rfl, hp, ?_⟩
      exact (Option.some.inj h).symm

/-- Witness for C9 at price 3 and effective buy price 2. -/
theorem price_diff_percent_safe_witness :
    ∃ p, (some 2 : Option ℚ) = some p ∧ p ≠ 0 ∧
      ((3 : ℚ) / 2 - 1) * 100 = (3 / p - 1) * 100 :=
  price_diff_percent_safe 3 (some 2) ((3 / 2 - 1) * 100) rfl

/-- C10: the order-choice handler replies "Invalid order ID" exactly
for non-cancel callback data that is not a decimal string; on decimal
data whose integer matches no order id of the token, it raises
StopIteration (an uncaught exception) instead of replying. -/
theorem orderchoice_spec (data : String) (orders : List OrderW) :
    (data ≠ "cancel" → isdecimal data = false →
      command_edittoken_orderchoice data orders = .ok .invalidOrderId) ∧
    (command_edittoken_orderchoice data orders = .ok .invalidOrderId →
      isdecimal data = false) ∧
    (isdecimal data = true → (∀ o ∈ orders, o.id ≠ decimalVal data) →
      command_edittoken_orderchoice data orders = .error ()) := by
  refine ⟨?_, ?_, ?_⟩
  · intro hne hdec
    rw [command_edittoken_orderchoice, if_neg hne, hdec]
    rfl
  · intro hres
    by_cases hc : data = "cancel"
    · rw [command_edittoken_orderchoice, if_pos hc] at hres
      exact absurd hres (by simp)
    · by_cases hd : isdecimal data
      · exfalso
        rw [command_edittoken_orderchoice, if_neg hc, hd] at hres
        simp only [Bool.not_true, if_false] at hres
        cases hfind : orders.find? (fun o => o.id = decimalVal data) with
        | some o =>
          rw [hfind] at hres
          simp at hres
        | none =>
          rw [hfind] at hres
          simp at hres
      · simpa using hd
  · intro hdec hnone
    have hc : data ≠ "cancel" := by
      intro h
      rw [h] at hdec
      exact absurd hdec (by decide)
    rw [command_edittoken_orderchoice, if_neg hc, hdec]
    have hfind : orders.find? (fun o => o.id = decimalVal data) = none := by
      rw [List.find?_eq_none]
      intro o ho
      simpa using hnone o ho
    rw [hfind]
    rfl

/-- Witness for C10: callback data "x2" gets the invalid-order-id
reply; decimal data "5" with only order 3 present raises the
StopIteration exception. -/
theorem orderchoice_spec_witness :
    (command_edittoken_orderchoice "x2" [⟨3, none⟩] = .ok .invalidOrderId) ∧
    (command_edittoken_orderchoice "5" [⟨3, none⟩] = .error ()) := by
  constructor
  · exact (orderchoice_spec "x2" [⟨3, none⟩]).1 (by decide) (by decide)
  · exact (orderchoice_spec "5" [⟨3, none⟩]).2.2 (by decide) (by decide)

end Pancaketrade
